import Mathlib

/-
  Verification of the House binary prediction-market engine.

  Shallow embedding of the LMSR pricing kernel (ammEngine.ts), the trading
  engine (tradingService.ts), the two resolver variants
  (prediction/services/resolutionService and the prediction_cursor variant),
  and the resolution scheduler query, over an explicit store state.

  Modelling conventions:
  - JavaScript numbers are embedded as real numbers.
  - The SQLite store is a record of tables; rows keyed by a primary key are
    functions from the key, other tables are lists of rows.  Positions are
    addressed by their UNIQUE(user_id, market_id, position_type) key in place
    of the synthetic uuid primary key.
  - The external data fetch (dataSourceService.fetchFromSource together with
    extractValue and evaluateCondition) is an external capability; its result
    enters the resolver as an explicit FetchOutcome argument.
  - Timestamps are naturals; ISO-8601 strings compare lexicographically in the
    source, which agrees with the chronological order modelled here.
  - db.transaction bodies are embedded as pure state-to-state functions, so a
    committed transaction is one function application and an error before the
    transaction leaves the state untouched by construction.
-/

noncomputable section

namespace House

/-- The two sides of a binary market (position_type in the store). -/
inductive PositionType where
  | yes
  | no
deriving DecidableEq, Repr

/-- String form used when the outcome is persisted (final_value column). -/
def PositionType.toStr : PositionType → String
  | .yes => "YES"
  | .no => "NO"

/-- Market lifecycle (status column): open, closed or resolved. -/
inductive MarketStatus where
  | opened
  | closed
  | resolved
deriving DecidableEq, Repr

/-- AMM inventory of a market: MarketState of ammEngine.ts. -/
structure MarketState where
  total_yes_shares : ℝ
  total_no_shares : ℝ
  liquidity_pool : ℝ

/-- LMSR cost function of ammEngine.ts, written with the log-sum-exp trick
exactly as in the source: factor out the maximum exponent. -/
def lmsrCost (qYes qNo b : ℝ) : ℝ :=
  let maxQ := max (qYes / b) (qNo / b)
  let expSum := Real.exp (qYes / b - maxQ) + Real.exp (qNo / b - maxQ)
  b * (maxQ + Real.log expSum)

/-- Current YES price (getYesPrice of ammEngine.ts), softmax form with the
degenerate liquidity_pool = 0 case returning 0.5. -/
def getYesPrice (s : MarketState) : ℝ :=
  if s.liquidity_pool = 0 then 0.5
  else
    let maxQ := max (s.total_yes_shares / s.liquidity_pool)
      (s.total_no_shares / s.liquidity_pool)
    let expYes := Real.exp (s.total_yes_shares / s.liquidity_pool - maxQ)
    let expNo := Real.exp (s.total_no_shares / s.liquidity_pool - maxQ)
    expYes / (expYes + expNo)

/-- Current NO price (getNoPrice of ammEngine.ts). -/
def getNoPrice (s : MarketState) : ℝ :=
  1 - getYesPrice s

/-- Bisection tolerance on cost used by calculateSharesForAmount. -/
def tolerance : ℝ := 0.0001

/-- Cost of the market after adding mid shares to the chosen side: the value
newCost computed inside the bisection loop of calculateSharesForAmount. -/
def newCostAt (s : MarketState) (positionType : PositionType) (mid : ℝ) : ℝ :=
  match positionType with
  | .yes => lmsrCost (s.total_yes_shares + mid) s.total_no_shares s.liquidity_pool
  | .no => lmsrCost s.total_yes_shares (s.total_no_shares + mid) s.liquidity_pool

/-- The bisection loop of calculateSharesForAmount: fuel counts the remaining
iterations (100 in the source); when the fuel runs out the loop falls through
to return the midpoint of the final bracket.  The cost evaluation f is
newCostAt for the market and side being traded. -/
def bisectShares (f : ℝ → ℝ) (targetCost : ℝ) : ℕ → ℝ → ℝ → ℝ
  | 0, low, high => (low + high) / 2
  | n + 1, low, high =>
    let mid := (low + high) / 2
    let newCost := f mid
    if |newCost - targetCost| < tolerance then mid
    else if newCost < targetCost then bisectShares f targetCost n mid high
    else bisectShares f targetCost n low mid

/-- calculateSharesForAmount of ammEngine.ts: solve
C(q + s·e_side) − C(q) = amount for s by bisection with low = 0,
high = amount * 10, 100 iterations.  No expansion of high is performed. -/
def calculateSharesForAmount (s : MarketState) (positionType : PositionType)
    (amount : ℝ) : ℝ :=
  let currentCost := lmsrCost s.total_yes_shares s.total_no_shares s.liquidity_pool
  let targetCost := currentCost + amount
  bisectShares (newCostAt s positionType) targetCost 100 0 (amount * 10)

/-- calculateAmountForShares of ammEngine.ts: proceeds of selling shares is
the clamped cost decrease max(0, C(q) − C(q − shares·e_side)). -/
def calculateAmountForShares (s : MarketState) (positionType : PositionType)
    (shares : ℝ) : ℝ :=
  let currentCost := lmsrCost s.total_yes_shares s.total_no_shares s.liquidity_pool
  let newCost :=
    match positionType with
    | PositionType.yes =>
      lmsrCost (s.total_yes_shares - shares) s.total_no_shares s.liquidity_pool
    | PositionType.no =>
      lmsrCost s.total_yes_shares (s.total_no_shares - shares) s.liquidity_pool
  max 0 (currentCost - newCost)

/-- Inventory after a buy settles: the bought side grows by the share count
(the newState computed by getBuyQuote and executeBuy). -/
def applyBuy (s : MarketState) (positionType : PositionType) (sh : ℝ) : MarketState :=
  match positionType with
  | .yes => { s with total_yes_shares := s.total_yes_shares + sh }
  | .no => { s with total_no_shares := s.total_no_shares + sh }

/-- Quote returned by getBuyQuote and getSellQuote. -/
structure QuoteResult where
  shares : ℝ
  avgPricePerShare : ℝ
  totalCost : ℝ
  priceImpact : ℝ
  newYesPrice : ℝ
  newNoPrice : ℝ

/-- getBuyQuote of ammEngine.ts. -/
def getBuyQuote (s : MarketState) (positionType : PositionType)
    (amount : ℝ) : QuoteResult :=
  let currentYesPrice := getYesPrice s
  let currentNoPrice := getNoPrice s
  let currentPrice :=
    match positionType with
    | PositionType.yes => currentYesPrice
    | PositionType.no => currentNoPrice
  let sharesReceived := calculateSharesForAmount s positionType amount
  let avgPricePerShare := if sharesReceived > 0 then amount / sharesReceived else 0
  let newQYes :=
    match positionType with
    | PositionType.yes => s.total_yes_shares + sharesReceived
    | PositionType.no => s.total_yes_shares
  let newQNo :=
    match positionType with
    | PositionType.yes => s.total_no_shares
    | PositionType.no => s.total_no_shares + sharesReceived
  let newState : MarketState := ⟨newQYes, newQNo, s.liquidity_pool⟩
  let priceImpact :=
    if currentPrice > 0 then (avgPricePerShare - currentPrice) / currentPrice else 0
  { shares := sharesReceived
    avgPricePerShare := avgPricePerShare
    totalCost := amount
    priceImpact := priceImpact
    newYesPrice := getYesPrice newState
    newNoPrice := getNoPrice newState }

/-- getSellQuote of ammEngine.ts. -/
def getSellQuote (s : MarketState) (positionType : PositionType)
    (shares : ℝ) : QuoteResult :=
  let currentYesPrice := getYesPrice s
  let currentNoPrice := getNoPrice s
  let currentPrice :=
    match positionType with
    | PositionType.yes => currentYesPrice
    | PositionType.no => currentNoPrice
  let amountReceived := calculateAmountForShares s positionType shares
  let avgPricePerShare := if shares > 0 then amountReceived / shares else 0
  let newQYes :=
    match positionType with
    | PositionType.yes => s.total_yes_shares - shares
    | PositionType.no => s.total_yes_shares
  let newQNo :=
    match positionType with
    | PositionType.yes => s.total_no_shares
    | PositionType.no => s.total_no_shares - shares
  let newState : MarketState := ⟨newQYes, newQNo, s.liquidity_pool⟩
  let priceImpact :=
    if currentPrice > 0 then (currentPrice - avgPricePerShare) / currentPrice else 0
  { shares := shares
    avgPricePerShare := avgPricePerShare
    totalCost := amountReceived
    priceImpact := priceImpact
    newYesPrice := getYesPrice newState
    newNoPrice := getNoPrice newState }

/-- Result of executeBuy and executeSell. -/
structure TradeResult where
  shares : ℝ
  avgPricePerShare : ℝ
  totalCost : ℝ
  newYesShares : ℝ
  newNoShares : ℝ

/-- executeBuy of ammEngine.ts. -/
def executeBuy (s : MarketState) (positionType : PositionType)
    (amount : ℝ) : TradeResult :=
  let quote := getBuyQuote s positionType amount
  let newQYes :=
    match positionType with
    | PositionType.yes => s.total_yes_shares + quote.shares
    | PositionType.no => s.total_yes_shares
  let newQNo :=
    match positionType with
    | PositionType.yes => s.total_no_shares
    | PositionType.no => s.total_no_shares + quote.shares
  { shares := quote.shares
    avgPricePerShare := quote.avgPricePerShare
    totalCost := amount
    newYesShares := newQYes
    newNoShares := newQNo }

/-- executeSell of ammEngine.ts. -/
def executeSell (s : MarketState) (positionType : PositionType)
    (shares : ℝ) : TradeResult :=
  let quote := getSellQuote s positionType shares
  let newQYes :=
    match positionType with
    | PositionType.yes => s.total_yes_shares - shares
    | PositionType.no => s.total_yes_shares
  let newQNo :=
    match positionType with
    | PositionType.yes => s.total_no_shares
    | PositionType.no => s.total_no_shares - shares
  { shares := shares
    avgPricePerShare := quote.avgPricePerShare
    totalCost := quote.totalCost
    newYesShares := newQYes
    newNoShares := newQNo }

/-! ## Store model -/

/-- Resolution criteria parsed from the resolution_criteria JSON column. -/
structure Criteria where
  path : String
  operator : String
  value : String

/-- A markets-table row (the columns the engine reads and writes). -/
structure Market where
  id : String
  status : MarketStatus
  total_yes_shares : ℝ
  total_no_shares : ℝ
  liquidity_pool : ℝ
  closes_at : ℕ
  resolution_source : String
  resolution_criteria : Criteria
  outcome : Option PositionType
  resolved_at : Option ℕ

/-- Inventory view of a market row, as consumed by the pricing kernel. -/
def Market.toState (m : Market) : MarketState :=
  ⟨m.total_yes_shares, m.total_no_shares, m.liquidity_pool⟩

/-- A positions-table row, addressed by its UNIQUE(user_id, market_id,
position_type) key. -/
structure Position where
  user_id : String
  market_id : String
  position_type : PositionType
  shares : ℝ
  avg_price : ℝ

/-- BUY or SELL (type column of the transactions table). -/
inductive TradeType where
  | buy
  | sell
deriving DecidableEq, Repr

/-- A transactions-table row (append-only). -/
structure Txn where
  user_id : String
  market_id : String
  type : TradeType
  position_type : PositionType
  shares : ℝ
  price_per_share : ℝ
  total_cost : ℝ

/-- A price_history-table row (append-only post-trade snapshot). -/
structure PricePoint where
  market_id : String
  yes_price : ℝ
  no_price : ℝ

/-- The source_response JSON blob persisted with a resolution, one shape per
resolver branch: manual override, probability-based manual market, raw oracle
payload, or probability fallback after a failed fetch. -/
inductive SourceResponse where
  | manualBlob (outcome : PositionType)
  | probabilityBlob (yes_price : ℝ) (outcome : PositionType)
  | rawBlob (data : String)
  | fallbackBlob (error : String) (yes_price : ℝ) (outcome : PositionType)

/-- The calculation_steps JSON blob, one shape per resolver branch; the
interpolated display strings of the source are abstracted to their payload
fields. -/
inductive CalcSteps where
  | manualSteps (outcome : PositionType)
  | probabilitySteps (yes_price : ℝ) (outcome : PositionType)
  | oracleSteps (path operator value actual : String) (outcome : PositionType)
  | fallbackSteps (error : String) (yes_price : ℝ) (outcome : PositionType)

/-- A resolutions-table row. -/
structure Resolution where
  market_id : String
  outcome : PositionType
  source_url : String
  source_response : SourceResponse
  calculation_steps : CalcSteps
  final_value : String
  resolved_by : String
  resolved_at : ℕ

/-- The store: users keyed by id carrying their balance, the other tables as
row collections. -/
structure DBState where
  users : String → Option ℝ
  markets : List Market
  positions : List Position
  transactions : List Txn
  price_history : List PricePoint
  resolutions : List Resolution

/-- SELECT * FROM markets WHERE id = ?. -/
def findMarket (st : DBState) (marketId : String) : Option Market :=
  st.markets.find? (fun m => m.id == marketId)

/-- SELECT ... FROM positions WHERE user_id = ? AND market_id = ? AND
position_type = ?. -/
def findPosition (st : DBState) (userId marketId : String)
    (positionType : PositionType) : Option Position :=
  st.positions.find? (fun p =>
    p.user_id == userId && p.market_id == marketId && p.position_type == positionType)

/-- UPDATE users SET balance = balance + ? WHERE id = ?. -/
def creditBalance (us : String → Option ℝ) (userId : String) (amount : ℝ) :
    String → Option ℝ :=
  fun x => if x = userId then (us x).map (fun b => b + amount) else us x

/-- Does the position row match the key carried by a trade request. -/
def posKeyMatch (p : Position) (userId marketId : String)
    (positionType : PositionType) : Bool :=
  p.user_id == userId && p.market_id == marketId && p.position_type == positionType

/-- Every stored balance is non-negative. -/
def BalancesNonneg (st : DBState) : Prop :=
  ∀ x b, st.users x = some b → 0 ≤ b

/-- Every stored position has non-negative shares. -/
def PositionsNonneg (st : DBState) : Prop :=
  ∀ p ∈ st.positions, 0 ≤ p.shares

/-! ## Trading engine (prediction_cursor tradingService.ts) -/

/-- A trade request as passed to executeBuyTrade and executeSellTrade; for a
sell, amount carries the share count, as in the source. -/
structure TradeRequest where
  marketId : String
  userId : String
  positionType : PositionType
  amount : ℝ

/-- The response assembled at the end of a trade. -/
structure TradeResponse where
  shares : ℝ
  pricePerShare : ℝ
  totalCost : ℝ
  newBalance : ℝ
  positionShares : ℝ
  positionAvgPrice : ℝ

/-- Errors surfaced by the trading engine (thrown as Error in the source). -/
inductive TradeError where
  | marketNotFound
  | marketNotOpen
  | userNotFound
  | insufficientFunds
  | insufficientShares
deriving DecidableEq, Repr

/-- The transaction body of executeBuyTrade (its executeTransaction closure):
inventory update, debit of the amount, position upsert with weighted-average
cost basis, transaction row and price point, committed together. -/
def buyCommit (st : DBState) (req : TradeRequest) (market : Market)
    (balance : ℝ) : DBState × TradeResponse :=
  let result := executeBuy market.toState req.positionType req.amount
  let markets1 := st.markets.map (fun m =>
    if m.id == req.marketId then
      { m with total_yes_shares := result.newYesShares,
               total_no_shares := result.newNoShares }
    else m)
  let users1 := fun x =>
    if x = req.userId then (st.users x).map (fun b => b - req.amount)
    else st.users x
  let upsert : List Position × ℝ × ℝ :=
    match findPosition st req.userId req.marketId req.positionType with
    | some p =>
      let totalCost := p.shares * p.avg_price + req.amount
      let newShares := p.shares + result.shares
      let newAvgPrice := totalCost / newShares
      (st.positions.map (fun q =>
        if posKeyMatch q req.userId req.marketId req.positionType then
          { q with shares := newShares, avg_price := newAvgPrice }
        else q), newShares, newAvgPrice)
    | none =>
      (st.positions ++
        [⟨req.userId, req.marketId, req.positionType,
          result.shares, result.avgPricePerShare⟩],
       result.shares, result.avgPricePerShare)
  let txn : Txn :=
    ⟨req.userId, req.marketId, .buy, req.positionType,
     result.shares, result.avgPricePerShare, req.amount⟩
  let newState : MarketState :=
    ⟨result.newYesShares, result.newNoShares, market.liquidity_pool⟩
  let pp : PricePoint :=
    ⟨req.marketId, getYesPrice newState, getNoPrice newState⟩
  let st1 : DBState :=
    { st with markets := markets1, users := users1,
              positions := upsert.1,
              transactions := st.transactions ++ [txn],
              price_history := st.price_history ++ [pp] }
  (st1,
   { shares := result.shares
     pricePerShare := result.avgPricePerShare
     totalCost := req.amount
     newBalance := balance - req.amount
     positionShares := upsert.2.1
     positionAvgPrice := upsert.2.2 })

/-- executeBuyTrade of tradingService.ts: validate market and balance, compute
the trade through executeBuy, then run the commit transaction.  The source
performs no degenerate-trade check on the quoted share count. -/
def executeBuyTrade (st : DBState) (req : TradeRequest) :
    Except TradeError (DBState × TradeResponse) :=
  match findMarket st req.marketId with
  | none => .error .marketNotFound
  | some market =>
    if market.status ≠ .opened then .error .marketNotOpen
    else
      match st.users req.userId with
      | none => .error .userNotFound
      | some balance =>
        if balance < req.amount then .error .insufficientFunds
        else .ok (buyCommit st req market balance)

/-- The transaction body of executeSellTrade (its executeTransaction closure):
inventory update, credit of the proceeds, position shrink (delete at the dust
threshold, otherwise update the shares field only), transaction row and price
point, committed together. -/
def sellCommit (st : DBState) (req : TradeRequest) (market : Market)
    (position : Position) : DBState × TradeResponse :=
  let result := executeSell market.toState req.positionType req.amount
  let markets1 := st.markets.map (fun m =>
    if m.id == req.marketId then
      { m with total_yes_shares := result.newYesShares,
               total_no_shares := result.newNoShares }
    else m)
  let users1 := creditBalance st.users req.userId result.totalCost
  let newShares := position.shares - req.amount
  let positions1 :=
    if newShares ≤ 0.0001 then
      st.positions.filter (fun q =>
        !(posKeyMatch q req.userId req.marketId req.positionType))
    else
      st.positions.map (fun q =>
        if posKeyMatch q req.userId req.marketId req.positionType then
          { q with shares := newShares }
        else q)
  let txn : Txn :=
    ⟨req.userId, req.marketId, .sell, req.positionType,
     req.amount, result.avgPricePerShare, result.totalCost⟩
  let newState : MarketState :=
    ⟨result.newYesShares, result.newNoShares, market.liquidity_pool⟩
  let pp : PricePoint :=
    ⟨req.marketId, getYesPrice newState, getNoPrice newState⟩
  let st1 : DBState :=
    { st with markets := markets1, users := users1,
              positions := positions1,
              transactions := st.transactions ++ [txn],
              price_history := st.price_history ++ [pp] }
  (st1,
   { shares := req.amount
     pricePerShare := result.avgPricePerShare
     totalCost := result.totalCost
     newBalance := (users1 req.userId).getD 0
     positionShares := max 0 newShares
     positionAvgPrice := position.avg_price })

/-- executeSellTrade of tradingService.ts: validate market and position,
compute the trade through executeSell, then run the commit transaction. -/
def executeSellTrade (st : DBState) (req : TradeRequest) :
    Except TradeError (DBState × TradeResponse) :=
  match findMarket st req.marketId with
  | none => .error .marketNotFound
  | some market =>
    if market.status ≠ .opened then .error .marketNotOpen
    else
      match findPosition st req.userId req.marketId req.positionType with
      | none => .error .insufficientShares
      | some position =>
        if position.shares < req.amount then .error .insufficientShares
        else .ok (sellCommit st req market position)

/-! ## Resolver (resolutionService, prediction and prediction_cursor variants) -/

/-- Result of the external data fetch and extraction as seen by the resolver:
the fetch failed with an error message, the fetch succeeded but no value was
extractable at criteria.path, or a value was extracted and the criteria
condition evaluated (conditionMet is the evaluateCondition result, valueStr
the String coercion of the extracted value). -/
inductive FetchOutcome where
  | failure (err : String)
  | successNoValue (data : String)
  | successValue (data : String) (conditionMet : Bool) (valueStr : String)

/-- Errors surfaced by resolveMarket (thrown as Error in the source). -/
inductive ResolveError where
  | marketNotFound
  | alreadyResolved
  | fetchFailed (msg : String)
  | extractFailed (msg : String)

/-- One payout entry recorded while settling winning positions. -/
structure Payout where
  userId : String
  amount : ℝ
  positionType : PositionType
  shares : ℝ

/-- The value returned by resolveMarket. -/
structure ResolutionResult where
  marketId : String
  outcome : PositionType
  resolution : Resolution
  payouts : List Payout

/-- The winning position rows of a market:
SELECT * FROM positions WHERE market_id = ? AND position_type = ?. -/
def winningPositions (st : DBState) (marketId : String)
    (outcome : PositionType) : List Position :=
  st.positions.filter (fun p => p.market_id == marketId && p.position_type == outcome)

/-- The db.transaction body shared by both resolveMarket variants: insert the
resolution row, mark the market resolved with the outcome and resolved_at,
then credit every holder of a winning position with shares × 1.0.  Positions
are not mutated. -/
def executeResolution (st : DBState) (marketId : String)
    (outcome : PositionType) (res : Resolution) (now : ℕ) : DBState :=
  let resolutions1 := st.resolutions ++ [res]
  let markets1 := st.markets.map (fun m =>
    if m.id == marketId then
      { m with status := .resolved, outcome := some outcome, resolved_at := some now }
    else m)
  let winning := winningPositions st marketId outcome
  let users1 := winning.foldl
    (fun us p => creditBalance us p.user_id (p.shares * 1.0)) st.users
  { st with users := users1, markets := markets1, resolutions := resolutions1 }

/-- The payouts list assembled by the settlement loop. -/
def payoutsOf (st : DBState) (marketId : String)
    (outcome : PositionType) : List Payout :=
  (winningPositions st marketId outcome).map
    (fun p => ⟨p.user_id, p.shares * 1.0, p.position_type, p.shares⟩)

/-- Outcome determination of the probability fallback path of the prediction
resolveMarket: outcome is YES when the current YES price exceeds 0.5, and the
proof blob records fallback:true with the triggering error message. -/
def fallbackDetermination (market : Market) (msg : String) :
    PositionType × SourceResponse × CalcSteps × String :=
  let yesPrice := getYesPrice market.toState
  let outcome := if yesPrice > 0.5 then PositionType.yes else PositionType.no
  (outcome, .fallbackBlob msg yesPrice outcome,
   .fallbackSteps msg yesPrice outcome, outcome.toStr)

namespace Prediction

/-- Outcome determination of the prediction resolveMarket (the code before
the settlement transaction): manual override, probability resolution for
manual-source markets, or the oracle path with probability fallback on any
fetch or extraction failure.  Returns the outcome, the proof blob, the
calculation steps and the final value. -/
def determineOutcome (market : Market) (manualOutcome : Option PositionType)
    (fetch : FetchOutcome) : PositionType × SourceResponse × CalcSteps × String :=
  match manualOutcome with
  | some o => (o, .manualBlob o, .manualSteps o, o.toStr)
  | none =>
    if market.resolution_source = "manual" then
      let yesPrice := getYesPrice market.toState
      let o := if yesPrice > 0.5 then PositionType.yes else PositionType.no
      (o, .probabilityBlob yesPrice o, .probabilitySteps yesPrice o, o.toStr)
    else
      match fetch with
      | .failure err =>
        fallbackDetermination market ("Failed to fetch data: " ++ err)
      | .successNoValue _ =>
        fallbackDetermination market
          ("Could not extract value at path: " ++ market.resolution_criteria.path)
      | .successValue data conditionMet valueStr =>
        let o := if conditionMet then PositionType.yes else PositionType.no
        (o, .rawBlob data,
         .oracleSteps market.resolution_criteria.path
           market.resolution_criteria.operator
           market.resolution_criteria.value valueStr o, valueStr)

/-- resolveMarket of the prediction backend (ammEngine.ts companion resolution
service): look up the market, reject resolved markets, determine the outcome,
then run the settlement transaction. -/
def resolveMarket (st : DBState) (marketId : String)
    (manualOutcome : Option PositionType) (resolvedBy : String)
    (fetch : FetchOutcome) (now : ℕ) :
    Except ResolveError (DBState × ResolutionResult) :=
  match findMarket st marketId with
  | none => .error .marketNotFound
  | some market =>
    if market.status = .resolved then .error .alreadyResolved
    else
      let det := determineOutcome market manualOutcome fetch
      let res : Resolution :=
        ⟨marketId, det.1, market.resolution_source, det.2.1, det.2.2.1,
         det.2.2.2, resolvedBy, now⟩
      let st1 := executeResolution st marketId det.1 res now
      .ok (st1, ⟨marketId, det.1, res, payoutsOf st marketId det.1⟩)

/-- getMarketsForResolution of the prediction backend: all open markets past
their closing time. -/
def getMarketsForResolution (st : DBState) (now : ℕ) : List Market :=
  st.markets.filter (fun m => m.status == .opened && decide (m.closes_at ≤ now))

end Prediction

namespace Cursor

/-- Outcome determination of the prediction_cursor resolveMarket (part_003):
manual override or the oracle path; there is no fallback, a failed fetch or a
missing value throws instead. -/
def determineOutcome (market : Market) (manualOutcome : Option PositionType)
    (fetch : FetchOutcome) :
    Except ResolveError (PositionType × SourceResponse × CalcSteps × String) :=
  match manualOutcome with
  | some o => .ok (o, .manualBlob o, .manualSteps o, o.toStr)
  | none =>
    match fetch with
    | .failure err => .error (.fetchFailed ("Failed to fetch data: " ++ err))
    | .successNoValue _ =>
      .error (.extractFailed
        ("Could not extract value at path: " ++ market.resolution_criteria.path))
    | .successValue data conditionMet valueStr =>
      let o := if conditionMet then PositionType.yes else PositionType.no
      .ok (o, .rawBlob data,
        .oracleSteps market.resolution_criteria.path
          market.resolution_criteria.operator
          market.resolution_criteria.value valueStr o, valueStr)

/-- resolveMarket of the prediction_cursor backend (resolutionService, the
part_003 source): look up the market, reject resolved markets, determine the
outcome (propagating oracle errors), then run the settlement transaction. -/
def resolveMarket (st : DBState) (marketId : String)
    (manualOutcome : Option PositionType) (resolvedBy : String)
    (fetch : FetchOutcome) (now : ℕ) :
    Except ResolveError (DBState × ResolutionResult) :=
  match findMarket st marketId with
  | none => .error .marketNotFound
  | some market =>
    if market.status = .resolved then .error .alreadyResolved
    else
      match determineOutcome market manualOutcome fetch with
      | .error e => .error e
      | .ok det =>
        let res : Resolution :=
          ⟨marketId, det.1, market.resolution_source, det.2.1, det.2.2.1,
           det.2.2.2, resolvedBy, now⟩
        let st1 := executeResolution st marketId det.1 res now
        .ok (st1, ⟨marketId, det.1, res, payoutsOf st marketId det.1⟩)

/-- getMarketsForResolution of the prediction_cursor backend: open markets
past their closing time whose resolution_source is not the literal manual. -/
def getMarketsForResolution (st : DBState) (now : ℕ) : List Market :=
  st.markets.filter (fun m =>
    m.status == .opened && decide (m.closes_at ≤ now) &&
      !(m.resolution_source == "manual"))

end Cursor

/-! ## Concrete instances used to exercise the engine -/

/-- A fresh balanced market inventory with liquidity 100. -/
def invBalanced : MarketState :=
  { total_yes_shares := 0, total_no_shares := 0, liquidity_pool := 100 }

/-- A saturated inventory: the NO side dominates so far that the YES price is
vanishingly small (liquidity 1, NO inventory 100). -/
def invSaturated : MarketState :=
  { total_yes_shares := 0, total_no_shares := 100, liquidity_pool := 1 }

/-- Sample resolution criteria. -/
def critSample : Criteria := { path := "a.b", operator := "equals", value := "1" }

/-- An open manual-source market with the balanced inventory, closing at
time 10. -/
def mktOpen : Market :=
  { id := "m", status := .opened, total_yes_shares := 0, total_no_shares := 0,
    liquidity_pool := 100, closes_at := 10, resolution_source := "manual",
    resolution_criteria := critSample, outcome := none, resolved_at := none }

/-- An already resolved market. -/
def mktResolved : Market :=
  { mktOpen with
    id := "r"
    status := .resolved
    outcome := some PositionType.yes
    resolved_at := some 3 }

/-- A store with one open market and one user holding 100 in cash. -/
def stSample : DBState :=
  { users := fun x => if x = "u" then some 100 else none,
    markets := [mktOpen], positions := [], transactions := [],
    price_history := [], resolutions := [] }

/-- A store ready for a payout: users u and v, u holding 30 YES shares and v
holding 20 NO shares of the open market. -/
def stPay : DBState :=
  { users := fun x => if x = "u" then some 1000 else if x = "v" then some 500 else none,
    markets := [mktOpen],
    positions := [⟨"u", "m", PositionType.yes, 30, 0.45⟩,
                  ⟨"v", "m", PositionType.no, 20, 0.55⟩],
    transactions := [], price_history := [], resolutions := [] }

/-- A store with one already resolved market. -/
def stResolved : DBState :=
  { users := fun x => if x = "u" then some 100 else none,
    markets := [mktResolved], positions := [], transactions := [],
    price_history := [], resolutions := [] }

/-- A store holding one open, due, manual-source market (closes_at 0). -/
def stDueManual : DBState :=
  { users := fun _ => none,
    markets := [{ mktOpen with closes_at := 0 }], positions := [],
    transactions := [], price_history := [], resolutions := [] }

/-- A store where user u holds a sellable position of 30 YES shares. -/
def stSell : DBState :=
  { users := fun x => if x = "u" then some 100 else none,
    markets := [mktOpen],
    positions := [⟨"u", "m", PositionType.yes, 30, 0.45⟩],
    transactions := [], price_history := [], resolutions := [] }

/-- An open market whose resolution source is a URL. -/
def mktOracle : Market :=
  { mktOpen with id := "o", resolution_source := "http://example.com/x" }

/-- A store holding the oracle market. -/
def stOracle : DBState :=
  { users := fun _ => none, markets := [mktOracle], positions := [],
    transactions := [], price_history := [], resolutions := [] }

/-- The resolution row written when stPay's market is manually resolved YES
by creator at time 5. -/
def c1Res : Resolution :=
  ⟨"m", PositionType.yes, "manual", .manualBlob PositionType.yes,
   .manualSteps PositionType.yes, "YES", "creator", 5⟩

/-- The state and result of that manual resolution. -/
def c1Out : DBState × ResolutionResult :=
  (executeResolution stPay "m" PositionType.yes c1Res 5,
   ⟨"m", PositionType.yes, c1Res, payoutsOf stPay "m" PositionType.yes⟩)

/-- The resolution row written when stSample's market is manually resolved NO
by admin at time 5, before its close time. -/
def c10Res : Resolution :=
  ⟨"m", PositionType.no, "manual", .manualBlob PositionType.no,
   .manualSteps PositionType.no, "NO", "admin", 5⟩

/-- Outcome determination of the oracle market when its fetch times out. -/
def c7Det : PositionType × SourceResponse × CalcSteps × String :=
  Prediction.determineOutcome mktOracle none (FetchOutcome.failure "timeout")

/-- The resolution row written for the oracle market after the failed fetch. -/
def c7Res : Resolution :=
  ⟨"o", c7Det.1, "http://example.com/x", c7Det.2.1, c7Det.2.2.1, c7Det.2.2.2,
   "auto", 11⟩

/-- The state and result of the fallback resolution of the oracle market. -/
def c7Out : DBState × ResolutionResult :=
  (executeResolution stOracle "o" c7Det.1 c7Res 11,
   ⟨"o", c7Det.1, c7Res, payoutsOf stOracle "o" c7Det.1⟩)

/-! ## Analytic lemmas about the LMSR cost function -/

/-- The log-sum-exp form of the source equals the plain cost formula. -/
theorem lmsrCost_eq {b : ℝ} (_hb : 0 < b) (x y : ℝ) :
    lmsrCost x y b = b * Real.log (Real.exp (x / b) + Real.exp (y / b)) := by
  unfold lmsrCost
  have hx : Real.exp (x / b) = Real.exp (max (x / b) (y / b)) *
      Real.exp (x / b - max (x / b) (y / b)) := by
    rw [← Real.exp_add]; ring_nf
  have hy : Real.exp (y / b) = Real.exp (max (x / b) (y / b)) *
      Real.exp (y / b - max (x / b) (y / b)) := by
    rw [← Real.exp_add]; ring_nf
  have hsum : Real.exp (x / b) + Real.exp (y / b) =
      Real.exp (max (x / b) (y / b)) *
        (Real.exp (x / b - max (x / b) (y / b)) +
          Real.exp (y / b - max (x / b) (y / b))) := by
    rw [hx, hy]; ring
  rw [hsum, Real.log_mul (Real.exp_pos _).ne' (by positivity), Real.log_exp]

/-- The cost function is symmetric in the two inventories. -/
theorem lmsrCost_comm (x y b : ℝ) : lmsrCost x y b = lmsrCost y x b := by
  simp only [lmsrCost]
  rw [max_comm]
  ring_nf

/-- The cost function is monotone in the first inventory. -/
theorem lmsrCost_mono_left {b : ℝ} (hb : 0 < b) {x y : ℝ} (c : ℝ)
    (h : x ≤ y) : lmsrCost x c b ≤ lmsrCost y c b := by
  rw [lmsrCost_eq hb, lmsrCost_eq hb]
  have h1 : Real.exp (x / b) + Real.exp (c / b) ≤
      Real.exp (y / b) + Real.exp (c / b) := by
    gcongr
  have h2 : Real.log (Real.exp (x / b) + Real.exp (c / b)) ≤
      Real.log (Real.exp (y / b) + Real.exp (c / b)) :=
    Real.log_le_log (by positivity : (0 : ℝ) < Real.exp (x / b) + Real.exp (c / b)) h1
  exact mul_le_mul_of_nonneg_left h2 hb.le

/-- The cost function is 1-Lipschitz from above in the first inventory. -/
theorem lmsrCost_lip_left {b : ℝ} (hb : 0 < b) {x y : ℝ} (c : ℝ)
    (h : x ≤ y) : lmsrCost y c b ≤ lmsrCost x c b + (y - x) := by
  rw [lmsrCost_eq hb, lmsrCost_eq hb]
  have hd : 0 ≤ (y - x) / b := div_nonneg (by linarith) hb.le
  have hD : (1 : ℝ) ≤ Real.exp ((y - x) / b) := Real.one_le_exp hd
  have hsplit : Real.exp (y / b) = Real.exp (x / b) * Real.exp ((y - x) / b) := by
    rw [← Real.exp_add]; ring_nf
  have hle : Real.exp (y / b) + Real.exp (c / b) ≤
      Real.exp ((y - x) / b) * (Real.exp (x / b) + Real.exp (c / b)) := by
    rw [hsplit]
    have hc : Real.exp (c / b) ≤ Real.exp ((y - x) / b) * Real.exp (c / b) :=
      le_mul_of_one_le_left (Real.exp_pos _).le hD
    nlinarith [Real.exp_pos (x / b), Real.exp_pos (c / b)]
  have hlog : Real.log (Real.exp (y / b) + Real.exp (c / b)) ≤
      (y - x) / b + Real.log (Real.exp (x / b) + Real.exp (c / b)) := by
    calc Real.log (Real.exp (y / b) + Real.exp (c / b))
        ≤ Real.log (Real.exp ((y - x) / b) * (Real.exp (x / b) + Real.exp (c / b))) :=
          Real.log_le_log (by positivity) hle
      _ = (y - x) / b + Real.log (Real.exp (x / b) + Real.exp (c / b)) := by
          rw [Real.log_mul (Real.exp_pos _).ne' (by positivity), Real.log_exp]
  have hbne : b ≠ 0 := hb.ne'
  calc b * Real.log (Real.exp (y / b) + Real.exp (c / b))
      ≤ b * ((y - x) / b + Real.log (Real.exp (x / b) + Real.exp (c / b))) :=
        mul_le_mul_of_nonneg_left hlog hb.le
    _ = b * Real.log (Real.exp (x / b) + Real.exp (c / b)) + (y - x) := by
        field_simp; ring

/-- Buying s shares at a balanced inventory costs at least s / 2: the spot
price starts at one half and only rises. -/
theorem lmsrCost_half_bound {b : ℝ} (hb : 0 < b) (q s : ℝ) :
    s / 2 ≤ lmsrCost (q + s) q b - lmsrCost q q b := by
  rw [lmsrCost_eq hb, lmsrCost_eq hb]
  have hsplit : Real.exp ((q + s) / b) = Real.exp (q / b) * Real.exp (s / b) := by
    rw [← Real.exp_add]; ring_nf
  have hfac : Real.exp ((q + s) / b) + Real.exp (q / b) =
      Real.exp (q / b) * (Real.exp (s / b) + 1) := by
    rw [hsplit]; ring
  have hfac2 : Real.exp (q / b) + Real.exp (q / b) =
      Real.exp (q / b) * 2 := by ring
  rw [hfac, hfac2, Real.log_mul (Real.exp_pos _).ne' (by positivity),
    Real.log_mul (Real.exp_pos _).ne' (by norm_num)]
  have hkey : Real.log 2 + s / b / 2 ≤ Real.log (Real.exp (s / b) + 1) := by
    have hsq : 0 ≤ (Real.exp (s / b / 2) - 1) ^ 2 := sq_nonneg _
    have hexp : Real.exp (s / b) = Real.exp (s / b / 2) * Real.exp (s / b / 2) := by
      rw [← Real.exp_add]; ring_nf
    have h2le : 2 * Real.exp (s / b / 2) ≤ Real.exp (s / b) + 1 := by
      nlinarith
    calc Real.log 2 + s / b / 2
        = Real.log (2 * Real.exp (s / b / 2)) := by
          rw [Real.log_mul (by norm_num) (Real.exp_pos _).ne', Real.log_exp]
      _ ≤ Real.log (Real.exp (s / b) + 1) :=
          Real.log_le_log (by positivity) h2le
  have hbne : b ≠ 0 := hb.ne'
  have hring : b * (Real.log (Real.exp (q / b)) + Real.log (Real.exp (s / b) + 1)) -
      b * (Real.log (Real.exp (q / b)) + Real.log 2)
      = b * (Real.log (Real.exp (s / b) + 1) - Real.log 2) := by ring
  rw [hring]
  have key2 : s / b / 2 ≤ Real.log (Real.exp (s / b) + 1) - Real.log 2 := by linarith
  have key3 : b * (s / b / 2) ≤
      b * (Real.log (Real.exp (s / b) + 1) - Real.log 2) :=
    mul_le_mul_of_nonneg_left key2 hb.le
  have hbs : b * (s / b / 2) = s / 2 := by
    field_simp
    ring
  linarith

/-! ## Lemmas about the bisection loop -/

/-- One unrolled iteration of the bisection loop. -/
theorem bisectShares_succ (f : ℝ → ℝ) (t : ℝ) (n : ℕ) (low high : ℝ) :
    bisectShares f t (n + 1) low high =
      if |f ((low + high) / 2) - t| < tolerance then (low + high) / 2
      else if f ((low + high) / 2) < t then bisectShares f t n ((low + high) / 2) high
      else bisectShares f t n low ((low + high) / 2) := rfl

/-- The bisection result stays inside the initial bracket. -/
theorem bisectShares_mem (f : ℝ → ℝ) (t : ℝ) (n : ℕ) :
    ∀ low high : ℝ, low ≤ high →
      low ≤ bisectShares f t n low high ∧ bisectShares f t n low high ≤ high := by
  induction n with
  | zero =>
    intro low high h
    simp only [bisectShares]
    constructor <;> linarith
  | succ n ih =>
    intro low high h
    simp only [bisectShares]
    split_ifs with h1 h2
    · constructor <;> linarith
    · have hrec := ih ((low + high) / 2) high (by linarith)
      exact ⟨by linarith [hrec.1], hrec.2⟩
    · have hrec := ih low ((low + high) / 2) (by linarith)
      exact ⟨hrec.1, by linarith [hrec.2]⟩

/-- If the cost at the lower end of the bracket is below the target, the cost
at the bisection result exceeds the target by at most the tolerance or the
final bracket width, whichever is larger.  Requires the cost evaluation to be
1-Lipschitz from above. -/
theorem bisectShares_cost_le (f : ℝ → ℝ) (t : ℝ)
    (hlip : ∀ x y : ℝ, x ≤ y → f y ≤ f x + (y - x)) (n : ℕ) :
    ∀ low high : ℝ, low ≤ high → f low ≤ t →
      f (bisectShares f t n low high) ≤ t + max tolerance ((high - low) / 2 ^ n) := by
  induction n with
  | zero =>
    intro low high h hf
    simp only [bisectShares, pow_zero, div_one]
    have h1 := hlip low ((low + high) / 2) (by linarith)
    have h2 := le_max_right tolerance (high - low)
    linarith
  | succ n ih =>
    intro low high h hf
    have h2n : (2 : ℝ) ^ n ≠ 0 := by positivity
    simp only [bisectShares]
    split_ifs with h1 h2
    · have habs := abs_lt.1 h1
      have hm := le_max_left tolerance ((high - low) / 2 ^ (n + 1))
      linarith [habs.2]
    · have hrec := ih ((low + high) / 2) high (by linarith) (le_of_lt h2)
      have heq : (high - (low + high) / 2) / 2 ^ n = (high - low) / 2 ^ (n + 1) := by
        rw [pow_succ]
        field_simp
        ring
      rw [heq] at hrec
      exact hrec
    · have hrec := ih low ((low + high) / 2) (by linarith) hf
      have heq : ((low + high) / 2 - low) / 2 ^ n = (high - low) / 2 ^ (n + 1) := by
        rw [pow_succ]
        field_simp
        ring
      rw [heq] at hrec
      exact hrec

/-- When the initial bracket encloses the target cost, the cost at the
bisection result is within the tolerance of the target, up to the final
bracket width.  Requires monotonicity and the Lipschitz bound. -/
theorem bisectShares_abs_le (f : ℝ → ℝ) (t : ℝ)
    (hmono : ∀ x y : ℝ, x ≤ y → f x ≤ f y)
    (hlip : ∀ x y : ℝ, x ≤ y → f y ≤ f x + (y - x)) (n : ℕ) :
    ∀ low high : ℝ, low ≤ high → f low ≤ t → t ≤ f high →
      |f (bisectShares f t n low high) - t| ≤ max tolerance ((high - low) / 2 ^ n) := by
  induction n with
  | zero =>
    intro low high h hl hh
    simp only [bisectShares, pow_zero, div_one]
    rw [abs_le]
    have h1 := hmono low ((low + high) / 2) (by linarith)
    have h2 := hmono ((low + high) / 2) high (by linarith)
    have h3 := hlip low high h
    have hm := le_max_right tolerance (high - low)
    constructor <;> linarith
  | succ n ih =>
    intro low high h hl hh
    simp only [bisectShares]
    split_ifs with h1 h2
    · exact le_trans (le_of_lt h1) (le_max_left _ _)
    · have hrec := ih ((low + high) / 2) high (by linarith) (le_of_lt h2) hh
      have heq : (high - (low + high) / 2) / 2 ^ n = (high - low) / 2 ^ (n + 1) := by
        rw [pow_succ]
        field_simp
        ring
      rw [heq] at hrec
      exact hrec
    · have hrec := ih low ((low + high) / 2) (by linarith) hl (not_lt.1 h2)
      have heq : ((low + high) / 2 - low) / 2 ^ n = (high - low) / 2 ^ (n + 1) := by
        rw [pow_succ]
        field_simp
        ring
      rw [heq] at hrec
      exact hrec

/-- The in-loop cost evaluation is monotone in the share count. -/
theorem newCostAt_mono (s : MarketState) (pt : PositionType)
    (hb : 0 < s.liquidity_pool) :
    ∀ x y : ℝ, x ≤ y → newCostAt s pt x ≤ newCostAt s pt y := by
  intro x y h
  cases pt
  · exact lmsrCost_mono_left hb _ (by linarith)
  · simp only [newCostAt]
    rw [lmsrCost_comm, lmsrCost_comm s.total_yes_shares]
    exact lmsrCost_mono_left hb _ (by linarith)

/-- The in-loop cost evaluation is 1-Lipschitz from above in the share
count. -/
theorem newCostAt_lip (s : MarketState) (pt : PositionType)
    (hb : 0 < s.liquidity_pool) :
    ∀ x y : ℝ, x ≤ y → newCostAt s pt y ≤ newCostAt s pt x + (y - x) := by
  intro x y h
  cases pt
  · have := lmsrCost_lip_left hb (x := s.total_yes_shares + x)
      (y := s.total_yes_shares + y) s.total_no_shares (by linarith)
    simp only [newCostAt]
    linarith
  · have := lmsrCost_lip_left hb (x := s.total_no_shares + x)
      (y := s.total_no_shares + y) s.total_yes_shares (by linarith)
    simp only [newCostAt]
    rw [lmsrCost_comm, lmsrCost_comm s.total_yes_shares]
    linarith

/-- At zero added shares the in-loop cost evaluation is the current cost. -/
theorem newCostAt_zero (s : MarketState) (pt : PositionType) :
    newCostAt s pt 0 =
      lmsrCost s.total_yes_shares s.total_no_shares s.liquidity_pool := by
  cases pt <;> simp [newCostAt]

/-- Unwinding sh shares on the post-buy inventory pays out exactly the
clamped cost increase of those sh shares over the pre-buy inventory. -/
theorem calcAmount_applyBuy (s : MarketState) (pt : PositionType) (sh : ℝ) :
    calculateAmountForShares (applyBuy s pt sh) pt sh =
      max 0 (newCostAt s pt sh -
        lmsrCost s.total_yes_shares s.total_no_shares s.liquidity_pool) := by
  cases pt <;> simp only [calculateAmountForShares, applyBuy, newCostAt]
  · rw [show s.total_yes_shares + sh - sh = s.total_yes_shares from by ring]
  · rw [show s.total_no_shares + sh - sh = s.total_no_shares from by ring]

/-- A buy quote for zero cash returns zero shares: the first bisection
midpoint is zero and already meets the target cost exactly. -/
theorem calcShares_zero (s : MarketState) (pt : PositionType) :
    calculateSharesForAmount s pt 0 = 0 := by
  unfold calculateSharesForAmount
  rw [show (100 : ℕ) = 99 + 1 from rfl, bisectShares_succ,
    show ((0 : ℝ) + 0 * 10) / 2 = 0 from by norm_num, newCostAt_zero,
    if_pos (show |lmsrCost s.total_yes_shares s.total_no_shares s.liquidity_pool -
        (lmsrCost s.total_yes_shares s.total_no_shares s.liquidity_pool + 0)| <
          tolerance from by norm_num [tolerance])]

/-- The final bracket width of the hundred-iteration bisection is below the
tolerance for any cash amount up to 10 ^ 20. -/
theorem width_le_tolerance {a : ℝ} (hbig : a ≤ 10 ^ 20) :
    (a * 10 - 0) / 2 ^ 100 ≤ tolerance := by
  rw [div_le_iff₀ (by positivity : (0 : ℝ) < 2 ^ 100)]
  have h : (tolerance : ℝ) * 2 ^ 100 =
      1267650600228229401496703205376 / 10000 := by
    norm_num [tolerance]
  have h20 : (10 : ℝ) ^ 20 = 100000000000000000000 := by norm_num
  rw [h]
  rw [h20] at hbig
  linarith

/-- A buy quote of 0.00001 on the fresh balanced market returns the first
bisection midpoint 0.00005: the cost of 0.00005 shares lies between 0.000025
and 0.00005, which is within the 0.0001 tolerance of the 0.00001 target. -/
theorem calcShares_tiny :
    calculateSharesForAmount invBalanced PositionType.yes 0.00001 = 0.00005 := by
  have hb : (0 : ℝ) < 100 := by norm_num
  have hlow : (0.000025 : ℝ) ≤ lmsrCost 0.00005 0 100 - lmsrCost 0 0 100 := by
    have h := lmsrCost_half_bound hb 0 0.00005
    rw [show (0 : ℝ) + 0.00005 = 0.00005 from by norm_num] at h
    linarith
  have hup : lmsrCost 0.00005 0 100 ≤ lmsrCost 0 0 100 + 0.00005 := by
    have h := lmsrCost_lip_left hb (x := 0) (y := 0.00005) 0 (by norm_num)
    linarith
  unfold calculateSharesForAmount
  rw [show (100 : ℕ) = 99 + 1 from rfl, bisectShares_succ,
    show ((0 : ℝ) + 0.00001 * 10) / 2 = 0.00005 from by norm_num]
  simp only [invBalanced, newCostAt]
  rw [show (0 : ℝ) + 0.00005 = 0.00005 from by norm_num]
  rw [if_pos (show |lmsrCost 0.00005 0 100 - (lmsrCost 0 0 100 + 0.00001)| <
      tolerance from by
    simp only [tolerance]
    rw [abs_lt]
    constructor <;> linarith)]

/-- C2 as stated fails: on the fresh balanced market a buy of 0.00001 is
quoted 0.00005 shares whose immediate unwinding pays at least 0.000025, more
than the 0.00001 paid in. -/
theorem house_c2_counterexample :
    0.00001 <
      calculateAmountForShares
        (applyBuy invBalanced PositionType.yes
          (calculateSharesForAmount invBalanced PositionType.yes 0.00001))
        PositionType.yes
        (calculateSharesForAmount invBalanced PositionType.yes 0.00001) := by
  rw [calcShares_tiny, calcAmount_applyBuy]
  have hb : (0 : ℝ) < 100 := by norm_num
  have hlow : (0.000025 : ℝ) ≤ lmsrCost (0 + 0.00005) 0 100 - lmsrCost 0 0 100 := by
    have h := lmsrCost_half_bound hb 0 0.00005
    linarith
  simp only [invBalanced, newCostAt]
  have hmax := le_max_right (0 : ℝ) (lmsrCost (0 + 0.00005) 0 100 - lmsrCost 0 0 100)
  linarith

/-- C2 amended: the unwinding proceeds can exceed the cash paid in, but only
by the bisection cost tolerance: proceeds ≤ amount + 0.0001 for any inventory,
positive liquidity and positive amount up to 10 ^ 20. -/
theorem house_c2_roundtrip (s : MarketState) (pt : PositionType) (a : ℝ)
    (hb : 0 < s.liquidity_pool) (ha : 0 < a) (hbig : a ≤ 10 ^ 20) :
    calculateAmountForShares (applyBuy s pt (calculateSharesForAmount s pt a)) pt
      (calculateSharesForAmount s pt a) ≤ a + tolerance := by
  rw [calcAmount_applyBuy]
  have hlip := newCostAt_lip s pt hb
  have hle := bisectShares_cost_le (newCostAt s pt)
    (lmsrCost s.total_yes_shares s.total_no_shares s.liquidity_pool + a) hlip 100
    0 (a * 10) (by linarith) (by rw [newCostAt_zero]; linarith)
  have hrdef : calculateSharesForAmount s pt a =
      bisectShares (newCostAt s pt)
        (lmsrCost s.total_yes_shares s.total_no_shares s.liquidity_pool + a) 100
        0 (a * 10) := rfl
  rw [hrdef]
  have hw := width_le_tolerance hbig
  rw [max_eq_left hw] at hle
  have htol : (0 : ℝ) ≤ tolerance := by norm_num [tolerance]
  exact max_le (by linarith) (by linarith)

/-- Instance of the amended round-trip bound at the fresh balanced market and
one unit of cash. -/
theorem house_c2_roundtrip_witness :
    (0 : ℝ) < invBalanced.liquidity_pool ∧
    calculateAmountForShares
        (applyBuy invBalanced PositionType.yes
          (calculateSharesForAmount invBalanced PositionType.yes 1))
        PositionType.yes (calculateSharesForAmount invBalanced PositionType.yes 1)
      ≤ 1 + tolerance :=
  ⟨by norm_num [invBalanced],
   house_c2_roundtrip invBalanced PositionType.yes 1 (by norm_num [invBalanced])
     (by norm_num) (by norm_num)⟩

/-- On the saturated market the YES cost barely moves: adding up to ten YES
shares raises the cost by at most exp (-90). -/
theorem saturated_cost_bound {s : ℝ} (hs10 : s ≤ 10) :
    lmsrCost s 100 1 - lmsrCost 0 100 1 ≤ Real.exp (-90) := by
  rw [lmsrCost_eq one_pos, lmsrCost_eq one_pos]
  simp only [div_one]
  rw [one_mul, one_mul, Real.exp_zero]
  have hsplit : Real.exp 100 * Real.exp (s - 100) = Real.exp s := by
    rw [← Real.exp_add]; ring_nf
  have h1 : Real.exp s + Real.exp 100 ≤
      (1 + Real.exp 100) * (1 + Real.exp (s - 100)) := by
    nlinarith [Real.exp_pos (s - 100), Real.exp_pos 100, hsplit]
  have h2 : Real.log (Real.exp s + Real.exp 100) ≤
      Real.log (1 + Real.exp 100) + Real.log (1 + Real.exp (s - 100)) := by
    calc Real.log (Real.exp s + Real.exp 100)
        ≤ Real.log ((1 + Real.exp 100) * (1 + Real.exp (s - 100))) :=
          Real.log_le_log (by positivity) h1
      _ = Real.log (1 + Real.exp 100) + Real.log (1 + Real.exp (s - 100)) :=
          Real.log_mul (by positivity) (by positivity)
  have h3 : Real.log (1 + Real.exp (s - 100)) ≤ Real.exp (s - 100) := by
    have h := Real.log_le_sub_one_of_pos
      (show (0 : ℝ) < 1 + Real.exp (s - 100) by positivity)
    linarith
  have h4 : Real.exp (s - 100) ≤ Real.exp (-90) := Real.exp_le_exp.2 (by linarith)
  linarith

/-- exp (-90) is at most one half. -/
theorem exp_neg_ninety_le_half : Real.exp (-90) ≤ 1 / 2 := by
  have h1 : Real.exp (-90) ≤ Real.exp (-1) := Real.exp_le_exp.2 (by norm_num)
  have h2 : Real.exp (-1) = (Real.exp 1)⁻¹ := Real.exp_neg 1
  have h3 : (2 : ℝ) < Real.exp 1 := by
    have h := Real.exp_one_gt_d9
    linarith
  have h5 : (Real.exp 1)⁻¹ ≤ 2⁻¹ := inv_anti₀ (by norm_num) h3.le
  rw [h2] at h1
  have h6 : (2 : ℝ)⁻¹ = 1 / 2 := by norm_num
  linarith

/-- C3 as stated fails: on the saturated market (YES price below exp (-90))
the cost of the whole bracket [0, 10] stays below the one unit of cash asked
for, the source never expands the upper bound, and the returned share count
misses the target cost by far more than the tolerance. -/
theorem house_c3_counterexample :
    tolerance <
      |newCostAt invSaturated PositionType.yes
          (calculateSharesForAmount invSaturated PositionType.yes 1) -
        (lmsrCost invSaturated.total_yes_shares invSaturated.total_no_shares
            invSaturated.liquidity_pool + 1)| := by
  have hmem := bisectShares_mem (newCostAt invSaturated PositionType.yes)
    (lmsrCost invSaturated.total_yes_shares invSaturated.total_no_shares
       invSaturated.liquidity_pool + 1) 100 0 (1 * 10) (by norm_num)
  have hrdef : calculateSharesForAmount invSaturated PositionType.yes 1 =
      bisectShares (newCostAt invSaturated PositionType.yes)
        (lmsrCost invSaturated.total_yes_shares invSaturated.total_no_shares
           invSaturated.liquidity_pool + 1) 100 0 (1 * 10) := rfl
  rw [hrdef]
  set r := bisectShares (newCostAt invSaturated PositionType.yes)
    (lmsrCost invSaturated.total_yes_shares invSaturated.total_no_shares
       invSaturated.liquidity_pool + 1) 100 0 (1 * 10) with hrd
  have hr0 : (0 : ℝ) ≤ r := hmem.1
  have hr10 : r ≤ 10 := by
    have := hmem.2
    linarith
  have hb1 : (0 : ℝ) < invSaturated.liquidity_pool := by norm_num [invSaturated]
  have hmono := newCostAt_mono invSaturated PositionType.yes hb1 0 r hr0
  rw [newCostAt_zero] at hmono
  have hclose : newCostAt invSaturated PositionType.yes r -
      (lmsrCost invSaturated.total_yes_shares invSaturated.total_no_shares
        invSaturated.liquidity_pool) ≤ Real.exp (-90) := by
    have hval : newCostAt invSaturated PositionType.yes r = lmsrCost (0 + r) 100 1 := by
      simp [newCostAt, invSaturated]
    have hcur : lmsrCost invSaturated.total_yes_shares invSaturated.total_no_shares
        invSaturated.liquidity_pool = lmsrCost 0 100 1 := by
      simp [invSaturated]
    rw [hval, hcur, show (0 : ℝ) + r = r from by ring]
    exact saturated_cost_bound hr10
  have hhalf := exp_neg_ninety_le_half
  rw [abs_sub_comm, abs_of_pos (by linarith [hmono, hclose, hhalf] :
    (0 : ℝ) < lmsrCost invSaturated.total_yes_shares invSaturated.total_no_shares
        invSaturated.liquidity_pool + 1 - newCostAt invSaturated PositionType.yes r)]
  have htol : tolerance = (0.0001 : ℝ) := rfl
  linarith [hmono, hclose, hhalf]

/-- C3 amended: the returned share count always lies in the bracket
[0, 10 × amount]; when the cost of the full bracket does reach the target
(the source never expands the bracket when it does not) and the amount is at
most 10 ^ 20, the cost of the returned shares is within the 0.0001 tolerance
of the requested cash amount. -/
theorem house_c3_quote (s : MarketState) (pt : PositionType) (a : ℝ)
    (hb : 0 < s.liquidity_pool) (ha : 0 < a) (hbig : a ≤ 10 ^ 20) :
    0 ≤ calculateSharesForAmount s pt a ∧
    calculateSharesForAmount s pt a ≤ a * 10 ∧
    (lmsrCost s.total_yes_shares s.total_no_shares s.liquidity_pool + a ≤
        newCostAt s pt (a * 10) →
      |newCostAt s pt (calculateSharesForAmount s pt a) -
          (lmsrCost s.total_yes_shares s.total_no_shares s.liquidity_pool + a)| ≤
        tolerance) := by
  have hrdef : calculateSharesForAmount s pt a =
      bisectShares (newCostAt s pt)
        (lmsrCost s.total_yes_shares s.total_no_shares s.liquidity_pool + a) 100
        0 (a * 10) := rfl
  have hmem := bisectShares_mem (newCostAt s pt)
    (lmsrCost s.total_yes_shares s.total_no_shares s.liquidity_pool + a) 100
    0 (a * 10) (by linarith)
  refine ⟨by rw [hrdef]; exact hmem.1, by rw [hrdef]; exact hmem.2, fun hbr => ?_⟩
  have habs := bisectShares_abs_le (newCostAt s pt)
    (lmsrCost s.total_yes_shares s.total_no_shares s.liquidity_pool + a)
    (newCostAt_mono s pt hb) (newCostAt_lip s pt hb) 100 0 (a * 10)
    (by linarith) (by rw [newCostAt_zero]; linarith) hbr
  rw [max_eq_left (width_le_tolerance hbig)] at habs
  rw [hrdef]
  exact habs

/-- Instance of the amended quote bound at the fresh balanced market and one
unit of cash, whose full bracket costs at least five. -/
theorem house_c3_quote_witness :
    (0 : ℝ) < invBalanced.liquidity_pool ∧
    (lmsrCost invBalanced.total_yes_shares invBalanced.total_no_shares
        invBalanced.liquidity_pool + 1 ≤
      newCostAt invBalanced PositionType.yes (1 * 10)) ∧
    |newCostAt invBalanced PositionType.yes
        (calculateSharesForAmount invBalanced PositionType.yes 1) -
      (lmsrCost invBalanced.total_yes_shares invBalanced.total_no_shares
          invBalanced.liquidity_pool + 1)| ≤ tolerance := by
  have hb : (0 : ℝ) < invBalanced.liquidity_pool := by norm_num [invBalanced]
  have hbr : lmsrCost invBalanced.total_yes_shares invBalanced.total_no_shares
      invBalanced.liquidity_pool + 1 ≤
      newCostAt invBalanced PositionType.yes (1 * 10) := by
    have h := lmsrCost_half_bound (show (0 : ℝ) < 100 by norm_num) 0 10
    rw [show (0 : ℝ) + 10 = 10 from by norm_num] at h
    have hval : newCostAt invBalanced PositionType.yes (1 * 10) =
        lmsrCost 10 0 100 := by
      norm_num [newCostAt, invBalanced]
    have hcur : lmsrCost invBalanced.total_yes_shares invBalanced.total_no_shares
        invBalanced.liquidity_pool = lmsrCost 0 0 100 := by
      simp [invBalanced]
    rw [hval, hcur]
    set A := lmsrCost 10 0 100
    set B := lmsrCost 0 0 100
    linarith
  exact ⟨hb, hbr,
    (house_c3_quote invBalanced PositionType.yes 1 hb (by norm_num)
      (by norm_num)).2.2 hbr⟩

/-! ## Lemmas about the store and the settlement transaction -/

/-- A credit leaves every other user untouched and adds the amount to the
credited user. -/
theorem creditBalance_apply (us : String → Option ℝ) (uid x : String) (a : ℝ) :
    creditBalance us uid a x =
      if x = uid then (us x).map (fun b => b + a) else us x := rfl

/-- Folding the payout credits over a list of positions adds, for every user,
the total winning shares of that user appearing in the list. -/
theorem foldl_credit (l : List Position) (us : String → Option ℝ) (x : String) :
    (l.foldl (fun acc p => creditBalance acc p.user_id (p.shares * 1.0)) us) x =
      (us x).map
        (fun b => b + ((l.filter (fun p => p.user_id == x)).map
            (fun p => p.shares * 1.0)).sum) := by
  induction l generalizing us with
  | nil =>
    simp only [List.foldl_nil, List.filter_nil, List.map_nil, List.sum_nil]
    cases us x <;> simp
  | cons p t ih =>
    simp only [List.foldl_cons]
    rw [ih]
    by_cases hx : x = p.user_id
    · have hbeq : (p.user_id == x) = true := by simp [hx]
      rw [creditBalance_apply, if_pos hx]
      simp only [List.filter_cons, hbeq, if_true, List.map_cons, List.sum_cons]
      cases us x
      · simp
      · simp only [Option.map_some']
        rw [Option.some.injEq]
        ring
    · have hbeq : (p.user_id == x) = false := by
        simp only [beq_eq_false_iff_ne, ne_eq]
        exact fun hc => hx hc.symm
      rw [creditBalance_apply, if_neg hx]
      simp only [List.filter_cons, hbeq, Bool.false_eq_true, if_false]

/-- find? by id over a map that preserves ids commutes with the map. -/
theorem find?_map_pres (l : List Market) (g : Market → Market)
    (hg : ∀ m, (g m).id = m.id) (mid : String) :
    (l.map g).find? (fun m => m.id == mid) =
      (l.find? (fun m => m.id == mid)).map g := by
  induction l with
  | nil => simp
  | cons a t ih =>
    by_cases h : (a.id == mid) = true
    · have h2 : ((g a).id == mid) = true := by rw [hg]; exact h
      rw [List.map_cons,
        List.find?_cons_of_pos (p := fun m : Market => m.id == mid) _ h2,
        List.find?_cons_of_pos (p := fun m : Market => m.id == mid) _ h]
      simp
    · have h2 : ¬((g a).id == mid) = true := by rw [hg]; exact h
      rw [List.map_cons,
        List.find?_cons_of_neg (p := fun m : Market => m.id == mid) _ h2,
        List.find?_cons_of_neg (p := fun m : Market => m.id == mid) _ h]
      exact ih

/-- What the settlement transaction does: the resolution row is appended, the
market row is flipped to resolved with the outcome and timestamp, every user
is credited with the total shares of their winning positions, and the
positions, transactions and price history tables are untouched. -/
theorem executeResolution_spec (st : DBState) (mid : String) (o : PositionType)
    (res : Resolution) (now : ℕ) :
    (executeResolution st mid o res now).resolutions = st.resolutions ++ [res] ∧
    (executeResolution st mid o res now).positions = st.positions ∧
    (executeResolution st mid o res now).transactions = st.transactions ∧
    (executeResolution st mid o res now).price_history = st.price_history ∧
    (∀ m, findMarket st mid = some m →
      findMarket (executeResolution st mid o res now) mid =
        some { m with status := MarketStatus.resolved, outcome := some o,
                      resolved_at := some now }) ∧
    (∀ x, (executeResolution st mid o res now).users x =
      (st.users x).map (fun b => b +
        (((winningPositions st mid o).filter (fun p => p.user_id == x)).map
          (fun p => p.shares * 1.0)).sum)) := by
  refine ⟨rfl, rfl, rfl, rfl, ?_, ?_⟩
  · intro m hm
    have hg : ∀ mk : Market,
        ((fun mk : Market =>
          if mk.id == mid then
            { mk with status := MarketStatus.resolved, outcome := some o,
                      resolved_at := some now }
          else mk) mk).id = mk.id := by
      intro mk
      by_cases h : (mk.id == mid) = true <;> simp [h]
    have hfind : findMarket (executeResolution st mid o res now) mid =
        (findMarket st mid).map (fun mk : Market =>
          if mk.id == mid then
            { mk with status := MarketStatus.resolved, outcome := some o,
                      resolved_at := some now }
          else mk) := by
      unfold executeResolution findMarket
      exact find?_map_pres st.markets _ hg mid
    rw [hfind, hm]
    have hm' : List.find? (fun mk : Market => mk.id == mid) st.markets = some m := hm
    have hid : (m.id == mid) = true :=
      List.find?_some (p := fun mk : Market => mk.id == mid) hm'
    simp [hid]
    intro hc
    exact absurd (by simpa using hid) hc
  · intro x
    unfold executeResolution
    exact foldl_credit (winningPositions st mid o) st.users x

/-- Inversion of a successful prediction-variant resolution: the market was
found and not yet resolved, the outcome and proof artifacts come from the
outcome determination, and the final state is the settlement transaction
applied to the initial state. -/
theorem Prediction.resolveMarket_ok_inv (st : DBState) (mid : String)
    (mo : Option PositionType) (rb : String) (fetch : FetchOutcome) (now : ℕ)
    (st' : DBState) (rr : ResolutionResult)
    (h : Prediction.resolveMarket st mid mo rb fetch now = .ok (st', rr)) :
    ∃ market, findMarket st mid = some market ∧
      market.status ≠ MarketStatus.resolved ∧
      rr.outcome = (Prediction.determineOutcome market mo fetch).1 ∧
      rr.resolution = ⟨mid, rr.outcome, market.resolution_source,
        (Prediction.determineOutcome market mo fetch).2.1,
        (Prediction.determineOutcome market mo fetch).2.2.1,
        (Prediction.determineOutcome market mo fetch).2.2.2, rb, now⟩ ∧
      rr.marketId = mid ∧
      rr.payouts = payoutsOf st mid rr.outcome ∧
      st' = executeResolution st mid rr.outcome rr.resolution now := by
  unfold Prediction.resolveMarket at h
  cases hm : findMarket st mid with
  | none => rw [hm] at h; exact absurd h (by simp)
  | some market =>
    rw [hm] at h
    simp only [] at h
    by_cases hres : market.status = MarketStatus.resolved
    · rw [if_pos hres] at h
      exact absurd h (by simp)
    · rw [if_neg hres] at h
      simp only [Except.ok.injEq, Prod.mk.injEq] at h
      obtain ⟨hst, hrr⟩ := h
      subst hrr
      subst hst
      exact ⟨market, rfl, hres, rfl, rfl, rfl, rfl, rfl⟩

/-- C1: a successful resolution settles everything inside one transaction:
the resolution row of the returned outcome is appended, the market row is
marked resolved with that outcome, every user is credited the total of their
winning-side shares at one unit each, and position rows (winning and losing
alike) are not mutated. -/
theorem house_c1_resolution_settlement (st : DBState) (mid : String)
    (mo : Option PositionType) (rb : String) (fetch : FetchOutcome) (now : ℕ)
    (st' : DBState) (rr : ResolutionResult)
    (h : Prediction.resolveMarket st mid mo rb fetch now = .ok (st', rr)) :
    st'.resolutions = st.resolutions ++ [rr.resolution] ∧
    rr.resolution.market_id = mid ∧
    rr.resolution.outcome = rr.outcome ∧
    (∀ m, findMarket st mid = some m →
      findMarket st' mid = some { m with
                                  status := MarketStatus.resolved
                                  outcome := some rr.outcome
                                  resolved_at := some now }) ∧
    (∀ x, st'.users x = (st.users x).map (fun b => b +
      (((winningPositions st mid rr.outcome).filter (fun p => p.user_id == x)).map
        (fun p => p.shares * 1.0)).sum)) ∧
    st'.positions = st.positions := by
  obtain ⟨market, hm, hres, hout, hresol, hmid, hpay, hst⟩ :=
    Prediction.resolveMarket_ok_inv st mid mo rb fetch now st' rr h
  have spec := executeResolution_spec st mid rr.outcome rr.resolution now
  rw [hst]
  exact ⟨spec.1, by rw [hresol], by rw [hresol], spec.2.2.2.2.1,
    spec.2.2.2.2.2, spec.2.1⟩

/-- Instance of the settlement theorem: manually resolving the market of
stPay leaves every position row in place. -/
theorem house_c1_witness :
    Prediction.resolveMarket stPay "m" (some PositionType.yes) "creator"
        (FetchOutcome.failure "e") 5 = Except.ok (c1Out.1, c1Out.2) ∧
    c1Out.1.positions = stPay.positions :=
  ⟨rfl,
   (house_c1_resolution_settlement stPay "m" (some PositionType.yes) "creator"
      (FetchOutcome.failure "e") 5 c1Out.1 c1Out.2 rfl).2.2.2.2.2⟩

/-- C4: resolving an already resolved market fails with AlreadyResolved in
both resolver variants; the error is raised before the settlement
transaction, so no state is produced and nothing can be paid twice. -/
theorem house_c4_already_resolved (st : DBState) (mid : String)
    (mo : Option PositionType) (rb : String) (fetch : FetchOutcome) (now : ℕ)
    (m : Market) (hm : findMarket st mid = some m)
    (hres : m.status = MarketStatus.resolved) :
    Prediction.resolveMarket st mid mo rb fetch now =
      .error ResolveError.alreadyResolved ∧
    Cursor.resolveMarket st mid mo rb fetch now =
      .error ResolveError.alreadyResolved := by
  unfold Prediction.resolveMarket Cursor.resolveMarket
  rw [hm]
  constructor <;> simp [hres]

/-- Instance of the AlreadyResolved theorem at the store holding a resolved
market. -/
theorem house_c4_witness :
    findMarket stResolved "r" = some mktResolved ∧
    mktResolved.status = MarketStatus.resolved ∧
    Prediction.resolveMarket stResolved "r" none "auto" (FetchOutcome.failure "e") 9 =
      Except.error ResolveError.alreadyResolved :=
  ⟨rfl, rfl,
   (house_c4_already_resolved stResolved "r" none "auto" (FetchOutcome.failure "e")
      9 mktResolved rfl rfl).1⟩

/-- C10: a manual outcome resolves any existing, not yet resolved market in
both variants, regardless of its close time or open/closed status; the only
checks are existence and not-already-resolved. -/
theorem house_c10_manual_resolve (st : DBState) (mid : String) (o : PositionType)
    (rb : String) (fetch : FetchOutcome) (now : ℕ) (m : Market)
    (hm : findMarket st mid = some m)
    (hres : m.status ≠ MarketStatus.resolved) :
    Prediction.resolveMarket st mid (some o) rb fetch now =
      Except.ok (executeResolution st mid o
          ⟨mid, o, m.resolution_source, SourceResponse.manualBlob o,
           CalcSteps.manualSteps o, o.toStr, rb, now⟩ now,
        ⟨mid, o, ⟨mid, o, m.resolution_source, SourceResponse.manualBlob o,
           CalcSteps.manualSteps o, o.toStr, rb, now⟩, payoutsOf st mid o⟩) ∧
    Cursor.resolveMarket st mid (some o) rb fetch now =
      Except.ok (executeResolution st mid o
          ⟨mid, o, m.resolution_source, SourceResponse.manualBlob o,
           CalcSteps.manualSteps o, o.toStr, rb, now⟩ now,
        ⟨mid, o, ⟨mid, o, m.resolution_source, SourceResponse.manualBlob o,
           CalcSteps.manualSteps o, o.toStr, rb, now⟩, payoutsOf st mid o⟩) := by
  unfold Prediction.resolveMarket Cursor.resolveMarket
  rw [hm]
  constructor <;>
    simp [hres, Prediction.determineOutcome, Cursor.determineOutcome]

/-- Instance of the manual-resolve theorem: the open market of stSample is
resolved NO at time 5, before its close time 10. -/
theorem house_c10_witness :
    findMarket stSample "m" = some mktOpen ∧
    mktOpen.status ≠ MarketStatus.resolved ∧
    5 < mktOpen.closes_at ∧
    Prediction.resolveMarket stSample "m" (some PositionType.no) "admin"
        (FetchOutcome.failure "e") 5 =
      Except.ok (executeResolution stSample "m" PositionType.no c10Res 5,
        ⟨"m", PositionType.no, c10Res, payoutsOf stSample "m" PositionType.no⟩) :=
  ⟨rfl, by decide, by decide,
   (house_c10_manual_resolve stSample "m" PositionType.no "admin"
      (FetchOutcome.failure "e") 5 mktOpen rfl (by decide)).1⟩

/-- C7 amended: when the resolution source is a URL (not the literal manual)
and the data fetch fails, or the fetched payload has no value at the criteria
path, the two resolver variants diverge.  The prediction variant falls back to
probability resolution: the outcome is YES exactly when the current YES price
exceeds 0.5, and the persisted proof blob is the fallback record carrying the
triggering error message.  The prediction_cursor variant (part_003) does not
fall back: it propagates the fetch or extraction error and writes nothing. -/
theorem house_c7_oracle_fallback (st : DBState) (mid rb : String) (now : ℕ)
    (st' : DBState) (rr : ResolutionResult) (m : Market)
    (hm : findMarket st mid = some m)
    (hsrc : m.resolution_source ≠ "manual") :
    (∀ err, Prediction.resolveMarket st mid none rb (FetchOutcome.failure err) now =
        .ok (st', rr) →
      (rr.outcome = PositionType.yes ↔ getYesPrice m.toState > 0.5) ∧
      rr.resolution.source_response =
        SourceResponse.fallbackBlob ("Failed to fetch data: " ++ err)
          (getYesPrice m.toState) rr.outcome ∧
      st'.resolutions = st.resolutions ++ [rr.resolution]) ∧
    (∀ data, Prediction.resolveMarket st mid none rb
        (FetchOutcome.successNoValue data) now = .ok (st', rr) →
      (rr.outcome = PositionType.yes ↔ getYesPrice m.toState > 0.5) ∧
      rr.resolution.source_response =
        SourceResponse.fallbackBlob
          ("Could not extract value at path: " ++ m.resolution_criteria.path)
          (getYesPrice m.toState) rr.outcome ∧
      st'.resolutions = st.resolutions ++ [rr.resolution]) ∧
    (∀ err, m.status ≠ MarketStatus.resolved →
      Cursor.resolveMarket st mid none rb (FetchOutcome.failure err) now =
        .error (ResolveError.fetchFailed ("Failed to fetch data: " ++ err))) ∧
    (∀ data, m.status ≠ MarketStatus.resolved →
      Cursor.resolveMarket st mid none rb (FetchOutcome.successNoValue data) now =
        .error (ResolveError.extractFailed
          ("Could not extract value at path: " ++ m.resolution_criteria.path))) := by
  refine ⟨?_, ?_, ?_, ?_⟩
  · intro err h
    obtain ⟨market, hmk, hres, hout, hresol, hmid2, hpay, hst⟩ :=
      Prediction.resolveMarket_ok_inv st mid none rb (FetchOutcome.failure err)
        now st' rr h
    rw [hm] at hmk
    have hem : m = market := by injection hmk
    subst hem
    have hdet : Prediction.determineOutcome m none (FetchOutcome.failure err) =
        fallbackDetermination m ("Failed to fetch data: " ++ err) := by
      simp only [Prediction.determineOutcome]
      rw [if_neg hsrc]
    rw [hdet] at hout hresol
    simp only [fallbackDetermination] at hout hresol
    refine ⟨?_, ?_, ?_⟩
    · by_cases hp : getYesPrice m.toState > 0.5
      · simp [hout, hp]
      · simp [hout, hp]
    · rw [hresol]
      simp only []
      rw [← hout]
    · rw [hst]
      exact (executeResolution_spec st mid rr.outcome rr.resolution now).1
  · intro data h
    obtain ⟨market, hmk, hres, hout, hresol, hmid2, hpay, hst⟩ :=
      Prediction.resolveMarket_ok_inv st mid none rb
        (FetchOutcome.successNoValue data) now st' rr h
    rw [hm] at hmk
    have hem : m = market := by injection hmk
    subst hem
    have hdet : Prediction.determineOutcome m none (FetchOutcome.successNoValue data) =
        fallbackDetermination m
          ("Could not extract value at path: " ++ m.resolution_criteria.path) := by
      simp only [Prediction.determineOutcome]
      rw [if_neg hsrc]
    rw [hdet] at hout hresol
    simp only [fallbackDetermination] at hout hresol
    refine ⟨?_, ?_, ?_⟩
    · by_cases hp : getYesPrice m.toState > 0.5
      · simp [hout, hp]
      · simp [hout, hp]
    · rw [hresol]
      simp only []
      rw [← hout]
    · rw [hst]
      exact (executeResolution_spec st mid rr.outcome rr.resolution now).1
  · intro err hres
    unfold Cursor.resolveMarket
    rw [hm]
    simp only []
    rw [if_neg hres]
    rfl
  · intro data hres
    unfold Cursor.resolveMarket
    rw [hm]
    simp only []
    rw [if_neg hres]
    rfl

/-- C7 as stated fails on the part_003 variant: the open oracle market of
stOracle is not resolved by probability fallback when its fetch fails; the
cursor resolveMarket propagates the fetch error instead and writes nothing. -/
theorem house_c7_counterexample :
    findMarket stOracle "o" = some mktOracle ∧
    mktOracle.resolution_source = "http://example.com/x" ∧
    mktOracle.status = MarketStatus.opened ∧
    Cursor.resolveMarket stOracle "o" none "auto"
        (FetchOutcome.failure "timeout") 11 =
      Except.error (ResolveError.fetchFailed ("Failed to fetch data: " ++ "timeout")) :=
  ⟨rfl, rfl, rfl, rfl⟩

/-- Instance of the fallback theorem: the oracle market of stOracle resolves
through the probability fallback in the prediction variant when its fetch
times out, with the proof blob recording the error, while the cursor variant
surfaces the fetch error. -/
theorem house_c7_witness :
    Prediction.resolveMarket stOracle "o" none "auto"
        (FetchOutcome.failure "timeout") 11 = Except.ok (c7Out.1, c7Out.2) ∧
    c7Out.2.resolution.source_response =
      SourceResponse.fallbackBlob ("Failed to fetch data: " ++ "timeout")
        (getYesPrice mktOracle.toState) c7Out.2.outcome ∧
    Cursor.resolveMarket stOracle "o" none "auto"
        (FetchOutcome.failure "timeout") 11 =
      Except.error (ResolveError.fetchFailed ("Failed to fetch data: " ++ "timeout")) :=
  ⟨rfl,
   ((house_c7_oracle_fallback stOracle "o" "auto" 11 c7Out.1 c7Out.2 mktOracle rfl
      (by decide)).1 "timeout" rfl).2.1,
   (house_c7_oracle_fallback stOracle "o" "auto" 11 c7Out.1 c7Out.2 mktOracle rfl
      (by decide)).2.2.1 "timeout" (by decide)⟩

/-! ## Lemmas about the trading engine -/

/-- A buy whose checks pass always commits: there is no degenerate-trade
check between the quote and the commit. -/
theorem executeBuyTrade_ok (st : DBState) (req : TradeRequest) (market : Market)
    (balance : ℝ) (hm : findMarket st req.marketId = some market)
    (hopen : market.status = MarketStatus.opened)
    (hu : st.users req.userId = some balance)
    (hbal : ¬ balance < req.amount) :
    executeBuyTrade st req = .ok (buyCommit st req market balance) := by
  unfold executeBuyTrade
  rw [hm]
  simp only []
  rw [if_neg (by simp [hopen])]
  rw [hu]
  simp only []
  rw [if_neg hbal]

/-- Inversion of a successful buy: all checks passed and the result is the
commit transaction. -/
theorem executeBuyTrade_ok_inv (st : DBState) (req : TradeRequest)
    (st' : DBState) (resp : TradeResponse)
    (h : executeBuyTrade st req = .ok (st', resp)) :
    ∃ market balance,
      findMarket st req.marketId = some market ∧
      market.status = MarketStatus.opened ∧
      st.users req.userId = some balance ∧
      ¬ balance < req.amount ∧
      st' = (buyCommit st req market balance).1 ∧
      resp = (buyCommit st req market balance).2 := by
  unfold executeBuyTrade at h
  cases hm : findMarket st req.marketId with
  | none => rw [hm] at h; exact absurd h (by simp)
  | some market =>
    rw [hm] at h
    simp only [] at h
    by_cases hopen : market.status ≠ MarketStatus.opened
    · rw [if_pos hopen] at h; exact absurd h (by simp)
    · rw [if_neg hopen] at h
      push_neg at hopen
      cases hu : st.users req.userId with
      | none => rw [hu] at h; simp only [] at h; exact absurd h (by simp)
      | some balance =>
        rw [hu] at h
        simp only [] at h
        by_cases hbal : balance < req.amount
        · rw [if_pos hbal] at h; exact absurd h (by simp)
        · rw [if_neg hbal] at h
          simp only [Except.ok.injEq] at h
          exact ⟨market, balance, rfl, hopen, rfl, hbal,
            (congrArg Prod.fst h).symm, (congrArg Prod.snd h).symm⟩

/-- A sell whose checks pass always commits. -/
theorem executeSellTrade_ok (st : DBState) (req : TradeRequest) (market : Market)
    (position : Position) (hm : findMarket st req.marketId = some market)
    (hopen : market.status = MarketStatus.opened)
    (hpos : findPosition st req.userId req.marketId req.positionType = some position)
    (hsh : ¬ position.shares < req.amount) :
    executeSellTrade st req = .ok (sellCommit st req market position) := by
  unfold executeSellTrade
  rw [hm]
  simp only []
  rw [if_neg (by simp [hopen])]
  rw [hpos]
  simp only []
  rw [if_neg hsh]

/-- Inversion of a successful sell: all checks passed and the result is the
commit transaction. -/
theorem executeSellTrade_ok_inv (st : DBState) (req : TradeRequest)
    (st' : DBState) (resp : TradeResponse)
    (h : executeSellTrade st req = .ok (st', resp)) :
    ∃ market position,
      findMarket st req.marketId = some market ∧
      market.status = MarketStatus.opened ∧
      findPosition st req.userId req.marketId req.positionType = some position ∧
      ¬ position.shares < req.amount ∧
      st' = (sellCommit st req market position).1 ∧
      resp = (sellCommit st req market position).2 := by
  unfold executeSellTrade at h
  cases hm : findMarket st req.marketId with
  | none => rw [hm] at h; exact absurd h (by simp)
  | some market =>
    rw [hm] at h
    simp only [] at h
    by_cases hopen : market.status ≠ MarketStatus.opened
    · rw [if_pos hopen] at h; exact absurd h (by simp)
    · rw [if_neg hopen] at h
      push_neg at hopen
      cases hpos : findPosition st req.userId req.marketId req.positionType with
      | none => rw [hpos] at h; simp only [] at h; exact absurd h (by simp)
      | some position =>
        rw [hpos] at h
        simp only [] at h
        by_cases hsh : position.shares < req.amount
        · rw [if_pos hsh] at h; exact absurd h (by simp)
        · rw [if_neg hsh] at h
          simp only [Except.ok.injEq] at h
          exact ⟨market, position, rfl, hopen, rfl, hsh,
            (congrArg Prod.fst h).symm, (congrArg Prod.snd h).symm⟩

/-- The buy commit debits the buyer by exactly the amount and touches no other
balance. -/
theorem buyCommit_users (st : DBState) (req : TradeRequest) (market : Market)
    (balance : ℝ) :
    (buyCommit st req market balance).1.users =
      fun x => if x = req.userId then (st.users x).map (fun b => b - req.amount)
        else st.users x := rfl

/-- The buy commit appends exactly one transaction row. -/
theorem buyCommit_transactions (st : DBState) (req : TradeRequest)
    (market : Market) (balance : ℝ) :
    (buyCommit st req market balance).1.transactions =
      st.transactions ++
        [⟨req.userId, req.marketId, TradeType.buy, req.positionType,
          (executeBuy market.toState req.positionType req.amount).shares,
          (executeBuy market.toState req.positionType req.amount).avgPricePerShare,
          req.amount⟩] := rfl

/-- The reported share count of a buy is the quoted share count. -/
theorem buyCommit_shares (st : DBState) (req : TradeRequest) (market : Market)
    (balance : ℝ) :
    (buyCommit st req market balance).2.shares =
      (executeBuy market.toState req.positionType req.amount).shares := rfl

/-- The sell commit credits the seller with the sell proceeds. -/
theorem sellCommit_users (st : DBState) (req : TradeRequest) (market : Market)
    (position : Position) :
    (sellCommit st req market position).1.users =
      creditBalance st.users req.userId
        (executeSell market.toState req.positionType req.amount).totalCost := rfl

/-- The sell commit shrinks or deletes exactly the sold position row. -/
theorem sellCommit_positions (st : DBState) (req : TradeRequest) (market : Market)
    (position : Position) :
    (sellCommit st req market position).1.positions =
      if position.shares - req.amount ≤ 0.0001 then
        st.positions.filter (fun q =>
          !(posKeyMatch q req.userId req.marketId req.positionType))
      else
        st.positions.map (fun q =>
          if posKeyMatch q req.userId req.marketId req.positionType then
            { q with shares := position.shares - req.amount }
          else q) := rfl

/-- The sell response keeps the historical cost basis. -/
theorem sellCommit_avgPrice (st : DBState) (req : TradeRequest) (market : Market)
    (position : Position) :
    (sellCommit st req market position).2.positionAvgPrice =
      position.avg_price := rfl

/-- The sell proceeds are the LMSR cost decrease, clamped at zero. -/
theorem executeSell_totalCost (s : MarketState) (pt : PositionType) (sh : ℝ) :
    (executeSell s pt sh).totalCost = calculateAmountForShares s pt sh := rfl

/-- Sell proceeds are never negative. -/
theorem calculateAmountForShares_nonneg (s : MarketState) (pt : PositionType)
    (sh : ℝ) : 0 ≤ calculateAmountForShares s pt sh := by
  unfold calculateAmountForShares
  exact le_max_left _ _

/-- C5: balances stay non-negative across every committed operation.  A buy
fails with InsufficientFunds whenever the balance is below the amount;
a committed buy debits the buyer by exactly the amount and preserves
non-negativity; committed sells credit the non-negative proceeds; committed
resolutions credit the non-negative winning shares. -/
theorem house_c5_balance_nonneg (st : DBState)
    (hb : BalancesNonneg st) (hp : PositionsNonneg st) :
    (∀ (req : TradeRequest) (m : Market) (bal : ℝ),
        findMarket st req.marketId = some m →
        m.status = MarketStatus.opened → st.users req.userId = some bal →
        bal < req.amount →
        executeBuyTrade st req = .error TradeError.insufficientFunds) ∧
    (∀ (req : TradeRequest) (st' : DBState) (resp : TradeResponse),
        executeBuyTrade st req = .ok (st', resp) →
        st'.users req.userId =
          (st.users req.userId).map (fun b => b - req.amount) ∧
        BalancesNonneg st') ∧
    (∀ (req : TradeRequest) (st' : DBState) (resp : TradeResponse),
        executeSellTrade st req = .ok (st', resp) → BalancesNonneg st') ∧
    (∀ (mid rb : String) (mo : Option PositionType) (fetch : FetchOutcome)
        (now : ℕ) (st' : DBState) (rr : ResolutionResult),
        Prediction.resolveMarket st mid mo rb fetch now = .ok (st', rr) →
        BalancesNonneg st') := by
  refine ⟨?_, ?_, ?_, ?_⟩
  · intro req m bal hm hopen hu hbal
    unfold executeBuyTrade
    rw [hm]
    simp only []
    rw [if_neg (by simp [hopen])]
    rw [hu]
    simp only []
    rw [if_pos hbal]
  · intro req st' resp h
    obtain ⟨market, balance, hm, hopen, hu, hbal, hst, hresp⟩ :=
      executeBuyTrade_ok_inv st req st' resp h
    subst hst
    rw [buyCommit_users]
    refine ⟨by simp, ?_⟩
    intro x b hxb
    simp only [buyCommit_users] at hxb
    by_cases hx : x = req.userId
    · rw [if_pos hx] at hxb
      rw [hx, hu] at hxb
      simp only [Option.map_some', Option.some.injEq] at hxb
      have hle := not_lt.1 hbal
      linarith [hxb.symm.le]
    · rw [if_neg hx] at hxb
      exact hb x b hxb
  · intro req st' resp h
    obtain ⟨market, position, hm, hopen, hpos, hsh, hst, hresp⟩ :=
      executeSellTrade_ok_inv st req st' resp h
    subst hst
    intro x b hxb
    rw [sellCommit_users, creditBalance_apply] at hxb
    have htc : 0 ≤ (executeSell market.toState req.positionType req.amount).totalCost := by
      rw [executeSell_totalCost]
      exact calculateAmountForShares_nonneg _ _ _
    by_cases hx : x = req.userId
    · rw [if_pos hx] at hxb
      cases hux : st.users x with
      | none => rw [hux] at hxb; simp at hxb
      | some v =>
        rw [hux] at hxb
        simp only [Option.map_some', Option.some.injEq] at hxb
        have hv := hb x v hux
        linarith [hxb.symm.le]
    · rw [if_neg hx] at hxb
      exact hb x b hxb
  · intro mid rb mo fetch now st' rr h
    obtain ⟨market, hmk, hres, hout, hresol, hmid2, hpay, hst⟩ :=
      Prediction.resolveMarket_ok_inv st mid mo rb fetch now st' rr h
    subst hst
    intro x b hxb
    rw [(executeResolution_spec st mid rr.outcome rr.resolution now).2.2.2.2.2 x]
      at hxb
    cases hux : st.users x with
    | none => rw [hux] at hxb; simp at hxb
    | some v =>
      rw [hux] at hxb
      simp only [Option.map_some', Option.some.injEq] at hxb
      have hv := hb x v hux
      have hS : 0 ≤ (((winningPositions st mid rr.outcome).filter
          (fun p => p.user_id == x)).map (fun p => p.shares * 1.0)).sum := by
        apply List.sum_nonneg
        intro y hy
        obtain ⟨p, hpmem, rfl⟩ := List.mem_map.1 hy
        have hp1 : p ∈ winningPositions st mid rr.outcome :=
          (List.mem_filter.1 hpmem).1
        have hp2 : p ∈ st.positions := by
          unfold winningPositions at hp1
          exact (List.mem_filter.1 hp1).1
        have hps := hp p hp2
        nlinarith
      linarith [hxb.symm.le]

/-- Instance of the balance theorem: a ten-fold overdraft attempt on stSample
is rejected with InsufficientFunds. -/
theorem house_c5_witness :
    BalancesNonneg stSample ∧ PositionsNonneg stSample ∧
    executeBuyTrade stSample ⟨"m", "u", PositionType.yes, 200⟩ =
      Except.error TradeError.insufficientFunds := by
  have hb0 : BalancesNonneg stSample := by
    intro x b hxb
    by_cases hx : x = "u"
    · rw [show stSample.users x = if x = "u" then some 100 else none from rfl,
        if_pos hx] at hxb
      simp only [Option.some.injEq] at hxb
      linarith [hxb.symm.le]
    · rw [show stSample.users x = if x = "u" then some 100 else none from rfl,
        if_neg hx] at hxb
      exact absurd hxb (by simp)
  have hp0 : PositionsNonneg stSample := by
    intro p hpmem
    exact absurd hpmem (by simp [stSample])
  exact ⟨hb0, hp0,
    (house_c5_balance_nonneg stSample hb0 hp0).1 ⟨"m", "u", PositionType.yes, 200⟩
      mktOpen 100 rfl rfl rfl (by norm_num)⟩

/-- C6 amended: executeBuyTrade performs no degenerate-trade check.  Whenever
the market is open, the user exists and the balance covers the amount, the
trade commits: the quoted share count (whatever its sign) is returned and a
transaction row is appended. -/
theorem house_c6_no_degenerate_check (st : DBState) (req : TradeRequest)
    (m : Market) (bal : ℝ)
    (hm : findMarket st req.marketId = some m)
    (hopen : m.status = MarketStatus.opened)
    (hu : st.users req.userId = some bal)
    (hbal : ¬ bal < req.amount) :
    (executeBuyTrade st req).toOption.map
        (fun p => (p.2.shares, p.1.transactions.length)) =
      some ((executeBuy m.toState req.positionType req.amount).shares,
        st.transactions.length + 1) := by
  rw [executeBuyTrade_ok st req m bal hm hopen hu hbal]
  simp only [Except.toOption, Option.map]
  rw [buyCommit_shares, buyCommit_transactions]
  simp

/-- Instance of the no-degenerate-check theorem at stSample with a zero-cash
request. -/
theorem house_c6_witness :
    findMarket stSample "m" = some mktOpen ∧
    stSample.users "u" = some 100 ∧
    (executeBuyTrade stSample ⟨"m", "u", PositionType.yes, 0⟩).toOption.map
        (fun p => (p.2.shares, p.1.transactions.length)) =
      some ((executeBuy mktOpen.toState PositionType.yes 0).shares,
        stSample.transactions.length + 1) :=
  ⟨rfl, rfl,
   house_c6_no_degenerate_check stSample ⟨"m", "u", PositionType.yes, 0⟩ mktOpen
     100 rfl rfl rfl (by norm_num)⟩

/-- C6 as stated fails: a zero-cash buy on the open market of stSample yields
a quote of zero shares, yet the trade commits (no DegenerateTrade error) and
appends a transaction row. -/
theorem house_c6_counterexample :
    (executeBuyTrade stSample ⟨"m", "u", PositionType.yes, 0⟩).toOption.map
        (fun p => (p.2.shares, p.1.transactions.length)) = some (0, 1) := by
  rw [executeBuyTrade_ok stSample ⟨"m", "u", PositionType.yes, 0⟩ mktOpen 100
    rfl rfl rfl (by norm_num)]
  simp only [Except.toOption, Option.map]
  rw [buyCommit_shares, buyCommit_transactions]
  have hsh : (executeBuy mktOpen.toState PositionType.yes 0).shares = 0 := by
    simp only [executeBuy, getBuyQuote]
    exact calcShares_zero _ _
  rw [hsh]
  simp [stSample]

/-- C8: a committed sell shrinks the sold position row by exactly the sold
share count: at or below the dust threshold the row is deleted, otherwise
only its shares field is updated, and the reported cost basis is the stored
avg_price, unchanged. -/
theorem house_c8_sell_position (st : DBState) (req : TradeRequest)
    (st' : DBState) (resp : TradeResponse) (position : Position)
    (hpos : findPosition st req.userId req.marketId req.positionType =
      some position)
    (h : executeSellTrade st req = .ok (st', resp)) :
    (position.shares - req.amount ≤ 0.0001 →
      st'.positions = st.positions.filter (fun q =>
        !(posKeyMatch q req.userId req.marketId req.positionType))) ∧
    (¬ position.shares - req.amount ≤ 0.0001 →
      st'.positions = st.positions.map (fun q =>
        if posKeyMatch q req.userId req.marketId req.positionType then
          { q with shares := position.shares - req.amount }
        else q)) ∧
    resp.positionAvgPrice = position.avg_price := by
  obtain ⟨market, position2, hm, hopen, hpos2, hsh, hst, hresp⟩ :=
    executeSellTrade_ok_inv st req st' resp h
  rw [hpos] at hpos2
  have hpp : position = position2 := by injection hpos2
  subst hpp
  subst hst
  rw [sellCommit_positions]
  refine ⟨fun hdust => ?_, fun hdust => ?_, ?_⟩
  · rw [if_pos hdust]
  · rw [if_neg hdust]
  · rw [hresp, sellCommit_avgPrice]

/-- Instance of the sell-position theorem: selling the entire 30-share
position of stSell deletes the row. -/
theorem house_c8_witness :
    findPosition stSell "u" "m" PositionType.yes =
      some ⟨"u", "m", PositionType.yes, 30, 0.45⟩ ∧
    (sellCommit stSell ⟨"m", "u", PositionType.yes, 30⟩ mktOpen
        ⟨"u", "m", PositionType.yes, 30, 0.45⟩).1.positions =
      stSell.positions.filter (fun q =>
        !(posKeyMatch q "u" "m" PositionType.yes)) := by
  have hok := executeSellTrade_ok stSell ⟨"m", "u", PositionType.yes, 30⟩ mktOpen
    ⟨"u", "m", PositionType.yes, 30, 0.45⟩ rfl rfl rfl (by norm_num)
  exact ⟨rfl,
    (house_c8_sell_position stSell ⟨"m", "u", PositionType.yes, 30⟩ _ _
      ⟨"u", "m", PositionType.yes, 30, 0.45⟩ rfl hok).1 (by norm_num)⟩

/-- C9 amended: the prediction variant of getMarketsForResolution returns
exactly the open markets past their close time; the prediction_cursor variant
(part_003) additionally excludes markets whose resolution source is the
literal manual. -/
theorem house_c9_due_markets (st : DBState) (now : ℕ) (m : Market) :
    (m ∈ Prediction.getMarketsForResolution st now ↔
      m ∈ st.markets ∧ m.status = MarketStatus.opened ∧ m.closes_at ≤ now) ∧
    (m ∈ Cursor.getMarketsForResolution st now ↔
      m ∈ st.markets ∧ m.status = MarketStatus.opened ∧ m.closes_at ≤ now ∧
        m.resolution_source ≠ "manual") := by
  constructor
  · unfold Prediction.getMarketsForResolution
    rw [List.mem_filter]
    simp [and_assoc]
  · unfold Cursor.getMarketsForResolution
    rw [List.mem_filter]
    simp [and_assoc]

/-- C9 as stated fails on the prediction_cursor variant: the open, due,
manual-source market of stDueManual is not returned by its
getMarketsForResolution. -/
theorem house_c9_counterexample :
    ({ mktOpen with closes_at := 0 } : Market) ∈ stDueManual.markets ∧
    ({ mktOpen with closes_at := 0 } : Market).status = MarketStatus.opened ∧
    ({ mktOpen with closes_at := 0 } : Market).closes_at ≤ 1 ∧
    Cursor.getMarketsForResolution stDueManual 1 = [] := by
  refine ⟨?_, rfl, by norm_num, rfl⟩
  rw [show stDueManual.markets = [{ mktOpen with closes_at := 0 }] from rfl]
  exact List.mem_singleton.2 rfl

end House
